import Mathlib

/-!
Shallow embedding of the alert-grouping model (`dashboard/models/alert_group.py`)
and the request-handler error reporting (`dashboard/request_handler.py`) of the
catapult dashboard fragment, together with proofs of the specification claims.

Conventions of the embedding:
* Python `None` for an optional integer/string field is `Option.none`.
* The code runs under Python 2, where `None` compares less than every integer;
  the `py*` comparison helpers encode that ordering.
* Datastore side effects (`put`, queries) are recorded as an explicit list of
  `Effect` values threaded through the functions.
* A Python exception (attribute access on `None`) is `Except.error`.
-/

namespace Catapult

/-- An anomaly/alert entity, restricted to the attributes read by
`alert_group.py`: `start_revision`, `end_revision`, `is_improvement`,
and the fields written back (`group`, `bug_id`). -/
structure Alert where
  start_revision : Int
  end_revision : Int
  is_improvement : Bool
  group : Option Nat
  bug_id : Option Int
deriving DecidableEq, Repr

/-- The `AlertGroup` ndb model: issue-tracker id, revision range,
test-suite names and alert kind.  `key` stands for the datastore key
assigned by `put()`. -/
structure AlertGroup where
  key : Nat
  bug_id : Option Int
  start_revision : Option Int
  end_revision : Option Int
  test_suites : List String
  alert_kind : Option String
deriving DecidableEq, Repr

/-- Observable datastore side effects of the grouping code. -/
inductive Effect where
  | fetchGroups (maxStartRevision : Int)
  | putGroup (key : Nat)
deriving DecidableEq, Repr

/-- Whether an effect is a datastore query (`_FetchAlertGroups`). -/
def Effect.isFetch : Effect → Bool
  | .fetchGroups _ => true
  | .putGroup _ => false

/-- Python 2 comparison `x > o` where `o` may be `None`
(`None` is smaller than every integer). -/
def pyGt (x : Int) : Option Int → Bool
  | none => true
  | some y => decide (x > y)

/-- Python 2 comparison `x < o` where `o` may be `None`. -/
def pyLt (x : Int) : Option Int → Bool
  | none => false
  | some y => decide (x < y)

/-- Python 2 comparison `x <= o` where `o` may be `None`. -/
def pyLe (x : Int) : Option Int → Bool
  | none => false
  | some y => decide (x ≤ y)

/-- Python 2 comparison `x >= o` where `o` may be `None`. -/
def pyGe (x : Int) : Option Int → Bool
  | none => true
  | some y => decide (x ≥ y)

/-- Python truthiness of an optional integer: `None` and `0` are falsy. -/
def pyTruthy : Option Int → Bool
  | none => false
  | some n => decide (n ≠ 0)

/-! ### `GetMinimumRange` -/

/-- One iteration of the `for a in alerts[1:]` loop of `GetMinimumRange`,
part handling `a.end_revision` (the `start` argument is the possibly
already-updated start).  `none` models the early `return None`. -/
def rangeStepEnd (start e : Int) (a : Alert) : Option (Int × Int) :=
  if a.end_revision < e then
    if a.end_revision ≤ start then none
    else some (start, a.end_revision)
  else some (start, e)

/-- One full iteration of the loop body of `GetMinimumRange`. -/
def rangeStep (start e : Int) (a : Alert) : Option (Int × Int) :=
  if a.start_revision > start then
    if a.start_revision ≥ e then none
    else rangeStepEnd a.start_revision e a
  else rangeStepEnd start e a

/-- The loop of `GetMinimumRange` over `alerts[1:]`.  A `none` element makes
the attribute access `a.start_revision` raise, modelled as `Except.error`. -/
def rangeLoop (start e : Int) : List (Option Alert) → Except String (Option (Int × Int))
  | [] => .ok (some (start, e))
  | none :: _ => .error "AttributeError"
  | some a :: rest =>
    match rangeStep start e a with
    | none => .ok none
    | some (s, e') => rangeLoop s e' rest

/-- Embedding of `GetMinimumRange(alerts)`: intersection of the revision ranges of
`alerts`; `None` (the inner `none`) when the list is empty, its first
element is `None`, or the intersection becomes empty. -/
def GetMinimumRange : List (Option Alert) → Except String (Option (Int × Int))
  | [] => .ok none
  | none :: _ => .ok none
  | some a0 :: rest => rangeLoop a0.start_revision a0.end_revision rest

/-- Maximum of a list of integers (`none` on the empty list). -/
def listMax : List Int → Option Int
  | [] => none
  | x :: t => some (t.foldl max x)

/-- Minimum of a list of integers (`none` on the empty list). -/
def listMin : List Int → Option Int
  | [] => none
  | x :: t => some (t.foldl min x)

/-- Running maximum of the `start_revision`s of `l`, seeded with `s`:
the value held by the `start` variable after the loop of `GetMinimumRange`
(when no early return fires). -/
def maxStart (s : Int) (l : List Alert) : Int :=
  (l.map fun a => a.start_revision).foldl max s

/-- Running minimum of the `end_revision`s of `l`, seeded with `e`. -/
def minEnd (e : Int) (l : List Alert) : Int :=
  (l.map fun a => a.end_revision).foldl min e

/-! ### `AlertGroup.UpdateRevisionRange` -/

/-- Embedding of `AlertGroup.UpdateRevisionRange(self, grouped_alerts)`: recompute the
range from the member alerts and `put` the group only when it changed.
Returns the updated group and the effects. -/
def UpdateRevisionRange (self : AlertGroup) (grouped_alerts : List (Option Alert)) :
    Except String (AlertGroup × List Effect) :=
  match GetMinimumRange grouped_alerts with
  | .error msg => .error msg
  | .ok min_rev_range =>
    let se : Option Int × Option Int :=
      match min_rev_range with
      | some (s, e) => (some s, some e)
      | none => (none, none)
    if self.start_revision ≠ se.1 ∨ self.end_revision ≠ se.2 then
      .ok ({ self with start_revision := se.1, end_revision := se.2 },
        [Effect.putGroup self.key])
    else
      .ok (self, [])

/-! ### `_IsOverlapping`, `_AddAlertToGroup`, `_CreateGroupForAlert`,
`_FindAlertGroup` -/

/-- Embedding of `_IsOverlapping(alert_entity, start, end)`. -/
def IsOverlapping (alert_entity : Alert) (start e : Option Int) : Bool :=
  pyLe alert_entity.start_revision e && pyGe alert_entity.end_revision start

/-- Embedding of `_AddAlertToGroup(alert_entity, group)`: narrow the group's range to the
added alert, `put` the group when it changed, propagate `bug_id`, and assign
the alert to the group.  Returns (updated alert, updated group, effects). -/
def AddAlertToGroup (alert_entity : Alert) (group : AlertGroup) :
    Alert × AlertGroup × List Effect :=
  let st1 : AlertGroup × Bool :=
    if pyGt alert_entity.start_revision group.start_revision then
      ({ group with start_revision := some alert_entity.start_revision }, true)
    else (group, false)
  let st2 : AlertGroup × Bool :=
    if pyLt alert_entity.end_revision st1.1.end_revision then
      ({ st1.1 with end_revision := some alert_entity.end_revision }, true)
    else st1
  let effects := if st2.2 then [Effect.putGroup st2.1.key] else []
  let alert1 :=
    if pyTruthy st2.1.bug_id then { alert_entity with bug_id := st2.1.bug_id }
    else alert_entity
  ({ alert1 with group := some st2.1.key }, st2.1, effects)

/-- Embedding of `_CreateGroupForAlert(alert_entity, test_suite, kind)`: build a fresh
group with the alert's range and assign the alert to it.  `key` is the key
the datastore hands out at `put()`. -/
def CreateGroupForAlert (alert_entity : Alert) (test_suite kind : String)
    (key : Nat) : AlertGroup × Alert :=
  let group : AlertGroup :=
    { key := key
      bug_id := none
      start_revision := some alert_entity.start_revision
      end_revision := some alert_entity.end_revision
      test_suites := [test_suite]
      alert_kind := some kind }
  (group, { alert_entity with group := some group.key })

/-- The matching condition of the loop in `_FindAlertGroup`. -/
def groupMatches (alert_entity : Alert) (group : AlertGroup)
    (test_suite kind : String) : Bool :=
  IsOverlapping alert_entity group.start_revision group.end_revision
    && (group.alert_kind == some kind)
    && group.test_suites.contains test_suite

/-- Embedding of `_FindAlertGroup(alert_entity, groups, test_suite, kind)`: assign the
alert to the first matching group.  Returns `none` when no group matches
(Python `False`); otherwise the updated alert, the updated group list and
the effects (Python `True`, with the mutations made in place). -/
def FindAlertGroup (alert_entity : Alert) (groups : List AlertGroup)
    (test_suite kind : String) : Option (Alert × List AlertGroup × List Effect) :=
  match groups with
  | [] => none
  | g :: gs =>
    if groupMatches alert_entity g test_suite kind then
      let r := AddAlertToGroup alert_entity g
      some (r.1, r.2.1 :: gs, r.2.2)
    else
      match FindAlertGroup alert_entity gs test_suite kind with
      | none => none
      | some (a', gs', eff) => some (a', g :: gs', eff)

/-! ### `_FetchAlertGroups` and `GroupAlerts` -/

/-- Datastore descending comparison on `start_revision` values
(`None` sorts after every integer in descending order). -/
def startDescLe (g h : AlertGroup) : Bool :=
  match g.start_revision, h.start_revision with
  | none, _ => false || (h.start_revision == none)
  | some _, none => true
  | some x, some y => decide (x ≥ y)

/-- Stable insertion for the descending-by-`start_revision` ordering. -/
def insertDesc (g : AlertGroup) : List AlertGroup → List AlertGroup
  | [] => [g]
  | h :: t => if startDescLe g h then g :: h :: t else h :: insertDesc g t

/-- Stable sort of groups by descending `start_revision`, the order clause
`-AlertGroup.start_revision` of the query. -/
def sortDescByStart : List AlertGroup → List AlertGroup
  | [] => []
  | g :: t => insertDesc g (sortDescByStart t)

/-- Value of `_MAX_GROUPS_TO_FETCH`. -/
def MAX_GROUPS_TO_FETCH : Nat := 2000

/-- The filter `AlertGroup.start_revision <= max_start_revision` of the
query (a datastore `None` sorts below every integer and matches). -/
def fetchMatch (max_start_revision : Int) (g : AlertGroup) : Bool :=
  match g.start_revision with
  | none => true
  | some s => decide (s ≤ max_start_revision)

/-- Embedding of `_FetchAlertGroups(max_start_revision)` against datastore contents `ds`:
the `AlertGroup` query fetches groups with `start_revision <= max` in
descending `start_revision` order (limit 2000); the "legacy" query, through
the `query`/`legacy_query` variable slip in the source, re-runs the same
`AlertGroup` query, so the fetched list is extended with a second copy. -/
def FetchAlertGroups (ds : List AlertGroup) (max_start_revision : Int) :
    List AlertGroup × List Effect :=
  let matching := sortDescByStart (ds.filter (fetchMatch max_start_revision))
  let groups := matching.take MAX_GROUPS_TO_FETCH
  (groups ++ matching.take MAX_GROUPS_TO_FETCH,
    [Effect.fetchGroups max_start_revision])

/-- State threaded through the `GroupAlerts` loop: the fetched (locally
mutated) group list, the groups created by `_CreateGroupForAlert`, the next
datastore key, and the accumulated effects. -/
structure GState where
  groups : List AlertGroup
  created : List AlertGroup
  nextKey : Nat
  effects : List Effect
deriving DecidableEq, Repr

/-- The `GState` of a `GroupAlerts` call that returns before fetching. -/
def GState.start (nextKey : Nat) : GState :=
  { groups := [], created := [], nextKey := nextKey, effects := [] }

/-- The body of the `for alert_entity in alerts` loop of `GroupAlerts`. -/
def processAlert (test_suite kind : String) (st : GState) (alert_entity : Alert) :
    GState × Alert :=
  match FindAlertGroup alert_entity st.groups test_suite kind with
  | some (a', groups', eff) =>
    ({ st with groups := groups', effects := st.effects ++ eff }, a')
  | none =>
    let r := CreateGroupForAlert alert_entity test_suite kind st.nextKey
    ({ st with
        created := st.created ++ [r.1]
        nextKey := st.nextKey + 1
        effects := st.effects ++ [Effect.putGroup st.nextKey] }, r.2)

/-- The key ordering of Python's stable `sorted(alerts, key=lambda a:
a.end_revision)`. -/
def endLe (a b : Alert) : Prop := a.end_revision ≤ b.end_revision

instance : DecidableRel endLe := fun a b =>
  inferInstanceAs (Decidable (a.end_revision ≤ b.end_revision))

instance : IsTotal Alert endLe := ⟨fun a b => Int.le_total a.end_revision b.end_revision⟩

instance : IsTrans Alert endLe := ⟨fun _ _ _ h h' => le_trans h h'⟩

/-- Embedding of `sorted(alerts, key=lambda a: a.end_revision)` (a stable sort). -/
def sortByEnd (alerts : List Alert) : List Alert :=
  List.insertionSort endLe alerts

/-- The `for alert_entity in alerts` loop of `GroupAlerts`: process the
alerts in order, threading the state; returns the final state and the
processed (mutated) alerts in processing order. -/
def groupLoop (test_suite kind : String) (st : GState) : List Alert → GState × List Alert
  | [] => (st, [])
  | a :: t =>
    let r := processAlert test_suite kind st a
    let rest := groupLoop test_suite kind r.1 t
    (rest.1, r.2 :: rest.2)

/-- Embedding of `GroupAlerts(alerts, test_suite, kind)` against datastore contents `ds`,
with `nextKey` the next free datastore key.  Returns the final loop state and
the list of processed (possibly mutated) alerts in processing order. -/
def GroupAlerts (ds : List AlertGroup) (nextKey : Nat) (alerts : List Alert)
    (test_suite kind : String) : GState × List Alert :=
  match alerts with
  | [] => (GState.start nextKey, [])
  | _ :: _ =>
    let alerts1 := alerts.filter fun a => !a.is_improvement
    let alerts2 := sortByEnd alerts1
    match alerts2.getLast? with
    | none => (GState.start nextKey, [])
    | some lastAlert =>
      let fetched := FetchAlertGroups ds lastAlert.end_revision
      let st0 : GState :=
        { groups := fetched.1
          created := []
          nextKey := nextKey
          effects := fetched.2 }
      groupLoop test_suite kind st0 alerts2

/-! ### `RequestHandler.ReportError` -/

/-- The mutable parts of a `webapp2` response: HTTP status and the output
stream written through `response.out.write`. -/
structure Response where
  status : Nat
  out : String
deriving DecidableEq, Repr

/-- Embedding of `self.response.set_status(status)`. -/
def Response.set_status (r : Response) (s : Nat) : Response :=
  { r with status := s }

/-- Embedding of `self.response.out.write(s)`: append to the output stream. -/
def Response.write (r : Response) (s : String) : Response :=
  { r with out := r.out ++ s }

/-- The state a `RequestHandler` method can change: its response and the
application log. -/
structure Handler where
  response : Response
  errorLog : List String
deriving DecidableEq, Repr

/-- Embedding of `logging.error(msg)`. -/
def loggingError (h : Handler) (msg : String) : Handler :=
  { h with errorLog := h.errorLog ++ [msg] }

/-- Python string formatting `'%s\n' % error_message`. -/
def formatWithNewline (error_message : String) : String :=
  error_message ++ "\n"

/-- Embedding of `RequestHandler.ReportError(self, error_message, status=500)`. -/
def ReportError (h : Handler) (error_message : String) (status : Nat := 500) :
    Handler :=
  let h1 := loggingError h error_message
  let h2 := { h1 with response := h1.response.set_status status }
  { h2 with response := h2.response.write (formatWithNewline error_message) }

/-! ## Lemmas about `GetMinimumRange` -/

theorem le_foldl_max (s : Int) (l : List Int) : s ≤ l.foldl max s := by
  induction l generalizing s with
  | nil => exact le_refl s
  | cons x t ih =>
    rw [List.foldl_cons]
    exact le_trans (le_max_left s x) (ih (max s x))

theorem foldl_min_le (e : Int) (l : List Int) : l.foldl min e ≤ e := by
  induction l generalizing e with
  | nil => exact le_refl e
  | cons x t ih =>
    rw [List.foldl_cons]
    exact le_trans (ih (min e x)) (min_le_left e x)

theorem maxStart_cons (s : Int) (a : Alert) (t : List Alert) :
    maxStart s (a :: t) = maxStart (max s a.start_revision) t := by
  simp [maxStart]

theorem minEnd_cons (e : Int) (a : Alert) (t : List Alert) :
    minEnd e (a :: t) = minEnd (min e a.end_revision) t := by
  simp [minEnd]

theorem le_maxStart (s : Int) (l : List Alert) : s ≤ maxStart s l :=
  le_foldl_max s _

theorem minEnd_le (e : Int) (l : List Alert) : minEnd e l ≤ e :=
  foldl_min_le e _

/-- Characterisation of the loop of `GetMinimumRange`: starting from a
non-degenerate running range, it produces the running maximum of the starts
and minimum of the ends when these still form a non-degenerate range, and
`None` otherwise. -/
theorem rangeLoop_char (l : List Alert) : ∀ s e : Int, s < e →
    rangeLoop s e (l.map some) =
      .ok (if maxStart s l < minEnd e l then some (maxStart s l, minEnd e l)
           else none) := by
  induction l with
  | nil =>
    intro s e hse
    simp [rangeLoop, maxStart, minEnd, hse]
  | cons a t ih =>
    intro s e hse
    have hmaxs : max s a.start_revision ≤ maxStart s (a :: t) := by
      rw [maxStart_cons]; exact le_maxStart _ t
    have hmins : minEnd e (a :: t) ≤ min e a.end_revision := by
      rw [minEnd_cons]; exact minEnd_le _ t
    rw [List.map_cons]
    by_cases h1 : a.start_revision > s
    · by_cases h2 : a.start_revision ≥ e
      · have hnc : ¬ maxStart s (a :: t) < minEnd e (a :: t) := by
          have : minEnd e (a :: t) ≤ maxStart s (a :: t) :=
            le_trans hmins (le_trans (min_le_left _ _)
              (le_trans h2 (le_trans (le_max_right s _) hmaxs)))
          exact not_lt_of_le this
        simp [rangeLoop, rangeStep, h1, h2, hnc]
      · have h2' : a.start_revision < e := lt_of_not_ge h2
        by_cases h3 : a.end_revision < e
        · by_cases h4 : a.end_revision ≤ a.start_revision
          · have hnc : ¬ maxStart s (a :: t) < minEnd e (a :: t) := by
              have : minEnd e (a :: t) ≤ maxStart s (a :: t) :=
                le_trans hmins (le_trans (min_le_right _ _)
                  (le_trans h4 (le_trans (le_max_right s _) hmaxs)))
              exact not_lt_of_le this
            simp [rangeLoop, rangeStep, rangeStepEnd, h1, h2, h3, h4, hnc]
          · have h4' : a.start_revision < a.end_revision := lt_of_not_ge h4
            have hms : maxStart s (a :: t) = maxStart a.start_revision t := by
              rw [maxStart_cons, max_eq_right (le_of_lt h1)]
            have hme : minEnd e (a :: t) = minEnd a.end_revision t := by
              rw [minEnd_cons, min_eq_right (le_of_lt h3)]
            simp only [rangeLoop, rangeStep, rangeStepEnd, h1, h2, h3, h4,
              if_true, if_false, ite_true, ite_false, hms, hme]
            simpa [rangeStep, rangeStepEnd, h1, h2, h3, h4] using
              ih a.start_revision a.end_revision h4'
        · have h3' : e ≤ a.end_revision := le_of_not_lt h3
          have hms : maxStart s (a :: t) = maxStart a.start_revision t := by
            rw [maxStart_cons, max_eq_right (le_of_lt h1)]
          have hme : minEnd e (a :: t) = minEnd e t := by
            rw [minEnd_cons, min_eq_left h3']
          simpa [rangeLoop, rangeStep, rangeStepEnd, h1, h2, h3, hms, hme] using
            ih a.start_revision e h2'
    · have h1' : a.start_revision ≤ s := le_of_not_lt h1
      by_cases h3 : a.end_revision < e
      · by_cases h4 : a.end_revision ≤ s
        · have hnc : ¬ maxStart s (a :: t) < minEnd e (a :: t) := by
            have : minEnd e (a :: t) ≤ maxStart s (a :: t) :=
              le_trans hmins (le_trans (min_le_right _ _)
                (le_trans h4 (le_trans (le_max_left s _) hmaxs)))
            exact not_lt_of_le this
          simp [rangeLoop, rangeStep, rangeStepEnd, h1, h3, h4, hnc]
        · have h4' : s < a.end_revision := lt_of_not_ge h4
          have hms : maxStart s (a :: t) = maxStart s t := by
            rw [maxStart_cons, max_eq_left h1']
          have hme : minEnd e (a :: t) = minEnd a.end_revision t := by
            rw [minEnd_cons, min_eq_right (le_of_lt h3)]
          simpa [rangeLoop, rangeStep, rangeStepEnd, h1, h3, h4, hms, hme] using
            ih s a.end_revision h4'
      · have h3' : e ≤ a.end_revision := le_of_not_lt h3
        have hms : maxStart s (a :: t) = maxStart s t := by
          rw [maxStart_cons, max_eq_left h1']
        have hme : minEnd e (a :: t) = minEnd e t := by
          rw [minEnd_cons, min_eq_left h3']
        simpa [rangeLoop, rangeStep, rangeStepEnd, h1, h3, hms, hme] using ih s e hse

/-- Characterisation of `GetMinimumRange` on a list of actual alerts whose
first element has a non-degenerate range. -/
theorem getMinimumRange_char (a0 : Alert) (rest : List Alert)
    (h : a0.start_revision < a0.end_revision) :
    GetMinimumRange ((a0 :: rest).map some) =
      .ok (if maxStart a0.start_revision rest < minEnd a0.end_revision rest
           then some (maxStart a0.start_revision rest,
                      minEnd a0.end_revision rest)
           else none) := by
  rw [List.map_cons]
  exact rangeLoop_char rest _ _ h

theorem listMax_map_start (a0 : Alert) (rest : List Alert) :
    listMax ((a0 :: rest).map fun a => a.start_revision) =
      some (maxStart a0.start_revision rest) := by
  simp [listMax, maxStart]

theorem listMin_map_end (a0 : Alert) (rest : List Alert) :
    listMin ((a0 :: rest).map fun a => a.end_revision) =
      some (minEnd a0.end_revision rest) := by
  simp [listMin, minEnd]

theorem foldl_max_perm {l1 l2 : List Int} (h : l1.Perm l2) :
    ∀ s : Int, l1.foldl max s = l2.foldl max s := by
  induction h with
  | nil => intro s; rfl
  | cons x _ ih =>
    intro s
    rw [List.foldl_cons, List.foldl_cons]
    exact ih _
  | swap x y t =>
    intro s
    rw [List.foldl_cons, List.foldl_cons, List.foldl_cons, List.foldl_cons]
    have : max (max s y) x = max (max s x) y := by
      rw [max_assoc, max_assoc, max_comm y x]
    rw [this]
  | trans _ _ ih1 ih2 =>
    intro s
    rw [ih1, ih2]

theorem foldl_min_perm {l1 l2 : List Int} (h : l1.Perm l2) :
    ∀ e : Int, l1.foldl min e = l2.foldl min e := by
  induction h with
  | nil => intro e; rfl
  | cons x _ ih =>
    intro e
    rw [List.foldl_cons, List.foldl_cons]
    exact ih _
  | swap x y t =>
    intro e
    rw [List.foldl_cons, List.foldl_cons, List.foldl_cons, List.foldl_cons]
    have : min (min e y) x = min (min e x) y := by
      rw [min_assoc, min_assoc, min_comm y x]
    rw [this]
  | trans _ _ ih1 ih2 =>
    intro e
    rw [ih1, ih2]

theorem listMax_perm {l1 l2 : List Int} (h : l1.Perm l2) :
    listMax l1 = listMax l2 := by
  induction h with
  | nil => rfl
  | cons x p _ =>
    simp only [listMax]
    rw [foldl_max_perm p]
  | swap x y t =>
    simp only [listMax, List.foldl_cons]
    rw [max_comm y x]
  | trans _ _ ih1 ih2 => rw [ih1, ih2]

theorem listMin_perm {l1 l2 : List Int} (h : l1.Perm l2) :
    listMin l1 = listMin l2 := by
  induction h with
  | nil => rfl
  | cons x p _ =>
    simp only [listMin]
    rw [foldl_min_perm p]
  | swap x y t =>
    simp only [listMin, List.foldl_cons]
    rw [min_comm y x]
  | trans _ _ ih1 ih2 => rw [ih1, ih2]

/-- Claim C2: on a non-empty list of alerts whose first element is an actual
alert and in which every alert has `start_revision < end_revision`,
`GetMinimumRange` returns the pair (maximum of the starts, minimum of the
ends) when the former is strictly below the latter and `None` otherwise;
on an empty list, or when the first element is `None`, it returns `None`. -/
theorem getMinimumRange_intersection :
    (∀ (a0 : Alert) (rest : List Alert) (S E : Int),
      (∀ a ∈ a0 :: rest, a.start_revision < a.end_revision) →
      listMax ((a0 :: rest).map fun a => a.start_revision) = some S →
      listMin ((a0 :: rest).map fun a => a.end_revision) = some E →
      GetMinimumRange ((a0 :: rest).map some) =
        .ok (if S < E then some (S, E) else none))
    ∧ GetMinimumRange [] = .ok none
    ∧ (∀ l, GetMinimumRange (none :: l) = .ok none) := by
  refine ⟨?_, rfl, fun l => rfl⟩
  intro a0 rest S E hall hS hE
  have h0 : a0.start_revision < a0.end_revision := hall a0 (List.mem_cons_self a0 rest)
  have hS' : S = maxStart a0.start_revision rest := by
    have := listMax_map_start a0 rest
    rw [hS] at this
    exact Option.some.inj this
  have hE' : E = minEnd a0.end_revision rest := by
    have := listMin_map_end a0 rest
    rw [hE] at this
    exact Option.some.inj this
  rw [getMinimumRange_char a0 rest h0, hS', hE']

/-- Witness for claim C2 at the docstring example: the alerts (200, 400) and
(300, 500) have minimum range (300, 400). -/
theorem getMinimumRange_intersection_witness :
    GetMinimumRange
        (([⟨200, 400, false, none, none⟩, ⟨300, 500, false, none, none⟩] :
            List Alert).map some) =
      .ok (if (300 : Int) < 400 then some ((300 : Int), (400 : Int)) else none) :=
  getMinimumRange_intersection.1 ⟨200, 400, false, none, none⟩
    [⟨300, 500, false, none, none⟩] 300 400 (by decide) (by decide) (by decide)

/-- Claim C6: on a non-empty list of alerts with non-degenerate ranges,
`GetMinimumRange` is invariant under permutation of the list. -/
theorem getMinimumRange_perm_invariant (l1 l2 : List Alert)
    (hne : l1 ≠ [])
    (hall : ∀ a ∈ l1, a.start_revision < a.end_revision)
    (hperm : l1.Perm l2) :
    GetMinimumRange (l1.map some) = GetMinimumRange (l2.map some) := by
  match l1, hne with
  | a0 :: r1, _ =>
    match l2, hperm.length_eq with
    | b0 :: r2, _ =>
      have hall2 : ∀ a ∈ b0 :: r2, a.start_revision < a.end_revision :=
        fun a ha => hall a (hperm.mem_iff.mpr ha)
      have h0 : a0.start_revision < a0.end_revision :=
        hall a0 (List.mem_cons_self a0 r1)
      have h0' : b0.start_revision < b0.end_revision :=
        hall2 b0 (List.mem_cons_self b0 r2)
      have hmax : maxStart a0.start_revision r1 = maxStart b0.start_revision r2 := by
        have hp : ((a0 :: r1).map fun a => a.start_revision).Perm
            ((b0 :: r2).map fun a => a.start_revision) := hperm.map _
        have := listMax_perm hp
        rw [listMax_map_start, listMax_map_start] at this
        exact Option.some.inj this
      have hmin : minEnd a0.end_revision r1 = minEnd b0.end_revision r2 := by
        have hp : ((a0 :: r1).map fun a => a.end_revision).Perm
            ((b0 :: r2).map fun a => a.end_revision) := hperm.map _
        have := listMin_perm hp
        rw [listMin_map_end, listMin_map_end] at this
        exact Option.some.inj this
      rw [getMinimumRange_char a0 r1 h0, getMinimumRange_char b0 r2 h0', hmax, hmin]

/-- Witness for claim C6: swapping the two docstring alerts leaves the
result unchanged. -/
theorem getMinimumRange_perm_invariant_witness :
    GetMinimumRange
        (([⟨200, 400, false, none, none⟩, ⟨300, 500, false, none, none⟩] :
            List Alert).map some) =
      GetMinimumRange
        (([⟨300, 500, false, none, none⟩, ⟨200, 400, false, none, none⟩] :
            List Alert).map some) :=
  getMinimumRange_perm_invariant
    [⟨200, 400, false, none, none⟩, ⟨300, 500, false, none, none⟩]
    [⟨300, 500, false, none, none⟩, ⟨200, 400, false, none, none⟩]
    (by decide) (by decide) (List.Perm.swap _ _ [])

/-! ## Lemmas about `AddAlertToGroup`, `UpdateRevisionRange`,
`CreateGroupForAlert` -/

/-- When the group's range fields are set, `_AddAlertToGroup` replaces them
by the intersection with the alert's range. -/
theorem addAlertToGroup_range (alert : Alert) (g : AlertGroup) (gs ge : Int)
    (hs : g.start_revision = some gs) (he : g.end_revision = some ge) :
    (AddAlertToGroup alert g).2.1.start_revision =
        some (max gs alert.start_revision) ∧
    (AddAlertToGroup alert g).2.1.end_revision =
        some (min ge alert.end_revision) := by
  by_cases h1 : alert.start_revision > gs
  · by_cases h2 : alert.end_revision < ge
    · constructor
      · simp [AddAlertToGroup, pyGt, pyLt, hs, he, h1, h2,
          max_eq_right (le_of_lt h1)]
      · simp [AddAlertToGroup, pyGt, pyLt, hs, he, h1, h2,
          min_eq_right (le_of_lt h2)]
    · constructor
      · simp [AddAlertToGroup, pyGt, pyLt, hs, he, h1, h2,
          max_eq_right (le_of_lt h1)]
      · simp [AddAlertToGroup, pyGt, pyLt, hs, he, h1, h2,
          min_eq_left (le_of_not_lt h2)]
  · by_cases h2 : alert.end_revision < ge
    · constructor
      · simp [AddAlertToGroup, pyGt, pyLt, hs, he, h1, h2,
          max_eq_left (le_of_not_lt h1)]
      · simp [AddAlertToGroup, pyGt, pyLt, hs, he, h1, h2,
          min_eq_right (le_of_lt h2)]
    · constructor
      · simp [AddAlertToGroup, pyGt, pyLt, hs, he, h1, h2,
          max_eq_left (le_of_not_lt h1)]
      · simp [AddAlertToGroup, pyGt, pyLt, hs, he, h1, h2,
          min_eq_left (le_of_not_lt h2)]

/-- Lemma: `_AddAlertToGroup` keeps the group's key and assigns the alert to it. -/
theorem addAlertToGroup_assigns (alert : Alert) (g : AlertGroup) :
    (AddAlertToGroup alert g).2.1.key = g.key ∧
    (AddAlertToGroup alert g).1.group = some g.key := by
  constructor
  · simp only [AddAlertToGroup]
    repeat' split
    all_goals rfl
  · simp only [AddAlertToGroup]
    repeat' split
    all_goals rfl

/-- Lemma: `_AddAlertToGroup` does not change the alert's revision range or its
`is_improvement` flag. -/
theorem addAlertToGroup_alert_frame (alert : Alert) (g : AlertGroup) :
    (AddAlertToGroup alert g).1.start_revision = alert.start_revision ∧
    (AddAlertToGroup alert g).1.end_revision = alert.end_revision := by
  constructor
  · simp only [AddAlertToGroup]
    repeat' split
    all_goals rfl
  · simp only [AddAlertToGroup]
    repeat' split
    all_goals rfl

/-- Lemma: `_AddAlertToGroup` emits no fetch effect. -/
theorem addAlertToGroup_effects (alert : Alert) (g : AlertGroup) :
    (AddAlertToGroup alert g).2.2 = [] ∨
      ∃ k, (AddAlertToGroup alert g).2.2 = [Effect.putGroup k] := by
  simp only [AddAlertToGroup]
  repeat' split
  all_goals first
  | exact Or.inl rfl
  | exact Or.inr ⟨_, rfl⟩

/-- Lemma: `UpdateRevisionRange` stores exactly the computed minimum range
(splitting a computed pair into the two fields, `(None, None)` when the
intersection is empty). -/
theorem updateRevisionRange_sets (g : AlertGroup) (alerts : List (Option Alert))
    (r : Option (Int × Int)) :
    GetMinimumRange alerts = .ok r →
    ∃ g' eff, UpdateRevisionRange g alerts = .ok (g', eff) ∧
      g'.start_revision = (match r with | some p => some p.1 | none => none) ∧
      g'.end_revision = (match r with | some p => some p.2 | none => none) := by
  intro h
  cases r with
  | none =>
    by_cases hc : g.start_revision ≠ (none : Option Int) ∨
        g.end_revision ≠ (none : Option Int)
    · refine ⟨{ g with start_revision := none, end_revision := none },
        [Effect.putGroup g.key], ?_, rfl, rfl⟩
      simp [UpdateRevisionRange, h, hc]
    · push_neg at hc
      refine ⟨g, [], ?_, ?_, ?_⟩
      · simp [UpdateRevisionRange, h, hc.1, hc.2]
      · simp [hc.1]
      · simp [hc.2]
  | some p =>
    by_cases hc : g.start_revision ≠ some p.1 ∨ g.end_revision ≠ some p.2
    · refine ⟨{ g with start_revision := some p.1, end_revision := some p.2 },
        [Effect.putGroup g.key], ?_, rfl, rfl⟩
      simp [UpdateRevisionRange, h, hc]
    · push_neg at hc
      refine ⟨g, [], ?_, ?_, ?_⟩
      · simp [UpdateRevisionRange, h, hc.1, hc.2]
      · simp [hc.1]
      · simp [hc.2]

/-- Claim C1: the operations that change a group's revision range keep it
equal to the intersection of its member alerts' ranges: a group created by
`_CreateGroupForAlert` carries its single alert's range (which is
`GetMinimumRange` of that one alert), `UpdateRevisionRange` stores
`GetMinimumRange` of the members (`(None, None)` when the intersection is
empty), and `_AddAlertToGroup` intersects the previous range with the new
alert's range. -/
theorem group_range_is_member_intersection :
    (∀ (a : Alert) (suite kind : String) (key : Nat),
      (CreateGroupForAlert a suite kind key).1.start_revision =
          some a.start_revision ∧
      (CreateGroupForAlert a suite kind key).1.end_revision =
          some a.end_revision ∧
      GetMinimumRange [some a] =
        .ok (some (a.start_revision, a.end_revision)))
    ∧ (∀ (g : AlertGroup) (alerts : List (Option Alert))
          (r : Option (Int × Int)),
        GetMinimumRange alerts = .ok r →
        ∃ g' eff, UpdateRevisionRange g alerts = .ok (g', eff) ∧
          g'.start_revision =
              (match r with | some p => some p.1 | none => none) ∧
          g'.end_revision =
              (match r with | some p => some p.2 | none => none))
    ∧ (∀ (alert : Alert) (g : AlertGroup) (gs ge : Int),
        g.start_revision = some gs → g.end_revision = some ge →
        (AddAlertToGroup alert g).2.1.start_revision =
            some (max gs alert.start_revision) ∧
        (AddAlertToGroup alert g).2.1.end_revision =
            some (min ge alert.end_revision)) := by
  refine ⟨fun a suite kind key => ⟨rfl, rfl, rfl⟩, updateRevisionRange_sets,
    addAlertToGroup_range⟩

/-- Witness for claim C1 at concrete inputs. -/
theorem group_range_is_member_intersection_witness :
    (∃ g' eff,
      UpdateRevisionRange (⟨7, none, some 3, some 10, ["s"], some "k"⟩ : AlertGroup)
          [some (⟨4, 6, false, none, none⟩ : Alert)] = .ok (g', eff) ∧
      g'.start_revision =
          (match (some ((4 : Int), (6 : Int)) : Option (Int × Int)) with
            | some p => some p.1 | none => none) ∧
      g'.end_revision =
          (match (some ((4 : Int), (6 : Int)) : Option (Int × Int)) with
            | some p => some p.2 | none => none)) ∧
    ((AddAlertToGroup (⟨1, 5, false, none, none⟩ : Alert)
          (⟨7, none, some 3, some 10, ["s"], some "k"⟩ : AlertGroup)).2.1.start_revision =
        some (max 3 1) ∧
      (AddAlertToGroup (⟨1, 5, false, none, none⟩ : Alert)
          (⟨7, none, some 3, some 10, ["s"], some "k"⟩ : AlertGroup)).2.1.end_revision =
        some (min 10 5)) :=
  ⟨group_range_is_member_intersection.2.1 ⟨7, none, some 3, some 10, ["s"], some "k"⟩
      [some ⟨4, 6, false, none, none⟩] (some (4, 6)) rfl,
    group_range_is_member_intersection.2.2 ⟨1, 5, false, none, none⟩
      ⟨7, none, some 3, some 10, ["s"], some "k"⟩ 3 10 rfl rfl⟩

/-- Claim C7: `UpdateRevisionRange` performs a datastore write exactly when
the computed range differs from the stored one; otherwise the group is
returned unchanged with no effect. -/
theorem updateRevisionRange_put_only_on_change
    (g : AlertGroup) (alerts : List (Option Alert)) (r : Option (Int × Int))
    (h : GetMinimumRange alerts = .ok r) :
    ((g.start_revision, g.end_revision) =
        (match r with | some p => (some p.1, some p.2) | none => (none, none)) →
      UpdateRevisionRange g alerts = .ok (g, [])) ∧
    ((g.start_revision, g.end_revision) ≠
        (match r with | some p => (some p.1, some p.2) | none => (none, none)) →
      UpdateRevisionRange g alerts =
        .ok ({ g with
                start_revision :=
                  (match r with | some p => some p.1 | none => none)
                end_revision :=
                  (match r with | some p => some p.2 | none => none) },
          [Effect.putGroup g.key])) := by
  cases r with
  | none =>
    constructor
    · intro heq
      have h1 : g.start_revision = (none : Option Int) :=
        congrArg Prod.fst heq
      have h2 : g.end_revision = (none : Option Int) :=
        congrArg Prod.snd heq
      simp [UpdateRevisionRange, h, h1, h2]
    · intro hne
      have hc : g.start_revision ≠ (none : Option Int) ∨
          g.end_revision ≠ (none : Option Int) := by
        by_contra hcon
        push_neg at hcon
        exact hne (by rw [hcon.1, hcon.2])
      simp [UpdateRevisionRange, h, hc]
  | some p =>
    constructor
    · intro heq
      have h1 : g.start_revision = some p.1 := congrArg Prod.fst heq
      have h2 : g.end_revision = some p.2 := congrArg Prod.snd heq
      simp [UpdateRevisionRange, h, h1, h2]
    · intro hne
      have hc : g.start_revision ≠ some p.1 ∨ g.end_revision ≠ some p.2 := by
        by_contra hcon
        push_neg at hcon
        exact hne (by rw [hcon.1, hcon.2])
      simp [UpdateRevisionRange, h, hc]

/-- Witness for claim C7: a group whose range already equals the computed
minimum range is returned unchanged with no write. -/
theorem updateRevisionRange_put_only_on_change_witness :
    UpdateRevisionRange (⟨7, none, some 4, some 6, ["s"], some "k"⟩ : AlertGroup)
        [some (⟨4, 6, false, none, none⟩ : Alert)] =
      .ok ((⟨7, none, some 4, some 6, ["s"], some "k"⟩ : AlertGroup), []) :=
  (updateRevisionRange_put_only_on_change
      ⟨7, none, some 4, some 6, ["s"], some "k"⟩
      [some ⟨4, 6, false, none, none⟩] (some (4, 6)) rfl).1 (by decide)

/-- Claim C10: an alert group consists of `bug_id`, a revision range, a
test-suite list and an alert kind; `_CreateGroupForAlert` builds a group
with the alert's range, the one-element test-suite list, the given kind,
and no `bug_id`, and assigns the alert to it. -/
theorem createGroupForAlert_fields (a : Alert) (suite kind : String) (key : Nat) :
    (CreateGroupForAlert a suite kind key).1.bug_id = none ∧
    (CreateGroupForAlert a suite kind key).1.start_revision =
        some a.start_revision ∧
    (CreateGroupForAlert a suite kind key).1.end_revision =
        some a.end_revision ∧
    (CreateGroupForAlert a suite kind key).1.test_suites = [suite] ∧
    (CreateGroupForAlert a suite kind key).1.alert_kind = some kind ∧
    (CreateGroupForAlert a suite kind key).2.group =
        some (CreateGroupForAlert a suite kind key).1.key :=
  ⟨rfl, rfl, rfl, rfl, rfl, rfl⟩

/-- Claim C9: `ReportError` logs the message, sets the response status
(500 when not supplied) and appends exactly the message followed by one
newline to the response body. -/
theorem reportError_effect (h : Handler) (msg : String) (status : Nat) :
    (ReportError h msg status).errorLog = h.errorLog ++ [msg] ∧
    (ReportError h msg status).response.status = status ∧
    (ReportError h msg status).response.out = h.response.out ++ (msg ++ "\n") ∧
    ReportError h msg = ReportError h msg 500 :=
  ⟨rfl, rfl, rfl, rfl⟩

/-- Claim C5: `_IsOverlapping` holds exactly when
`alert.start_revision <= end` and `alert.end_revision >= start`; an alert
touching a group's range in a single endpoint therefore counts as
overlapping, is added to the group by `_FindAlertGroup`, and
`_AddAlertToGroup` leaves the group with a degenerate range whose start
equals its end. -/
theorem isOverlapping_shared_endpoint :
    (∀ (a : Alert) (s e : Int),
      IsOverlapping a (some s) (some e) = true ↔
        a.start_revision ≤ e ∧ a.end_revision ≥ s)
    ∧ (∀ (a : Alert) (g : AlertGroup) (s e : Int) (suite kind : String),
        g.start_revision = some s → g.end_revision = some e →
        a.end_revision = s → a.start_revision < s → s < e →
        g.alert_kind = some kind → suite ∈ g.test_suites →
        IsOverlapping a g.start_revision g.end_revision = true ∧
        ∃ a' g' eff, FindAlertGroup a [g] suite kind = some (a', [g'], eff) ∧
          g'.start_revision = some s ∧ g'.end_revision = some s ∧
          a'.group = some g.key) := by
  constructor
  · intro a s e
    simp [IsOverlapping, pyLe, pyGe]
  · intro a g s e suite kind hs he hend hlt hse hkind hsuite
    have hover : IsOverlapping a g.start_revision g.end_revision = true := by
      rw [hs, he]
      simp only [IsOverlapping, pyLe, pyGe, Bool.and_eq_true, decide_eq_true_eq]
      exact ⟨le_of_lt (lt_trans hlt hse), le_of_eq hend.symm⟩
    refine ⟨hover, ?_⟩
    have hmatch : groupMatches a g suite kind = true := by
      simp only [groupMatches, hover, hkind, Bool.true_and, Bool.and_eq_true,
        beq_self_eq_true, true_and]
      exact List.elem_iff.mpr hsuite
    have hrange := addAlertToGroup_range a g s e hs he
    have hassign := addAlertToGroup_assigns a g
    refine ⟨(AddAlertToGroup a g).1, (AddAlertToGroup a g).2.1,
      (AddAlertToGroup a g).2.2, ?_, ?_, ?_, ?_⟩
    · simp [FindAlertGroup, hmatch]
    · rw [hrange.1, max_eq_left (le_of_lt hlt)]
    · rw [hrange.2, hend, min_eq_right (le_of_lt hse)]
    · exact hassign.2

/-- Witness for claim C5: the alert with range (1, 5) shares exactly the
endpoint 5 with the group range (5, 9); it is added to the group and leaves
it with the degenerate range (5, 5). -/
theorem isOverlapping_shared_endpoint_witness :
    IsOverlapping (⟨1, 5, false, none, none⟩ : Alert)
        (⟨7, none, some 5, some 9, ["s"], some "k"⟩ : AlertGroup).start_revision
        (⟨7, none, some 5, some 9, ["s"], some "k"⟩ : AlertGroup).end_revision = true ∧
    ∃ a' g' eff,
      FindAlertGroup (⟨1, 5, false, none, none⟩ : Alert)
          [(⟨7, none, some 5, some 9, ["s"], some "k"⟩ : AlertGroup)] "s" "k" =
        some (a', [g'], eff) ∧
      g'.start_revision = some 5 ∧ g'.end_revision = some 5 ∧
      a'.group = some (⟨7, none, some 5, some 9, ["s"], some "k"⟩ : AlertGroup).key :=
  isOverlapping_shared_endpoint.2 ⟨1, 5, false, none, none⟩
    ⟨7, none, some 5, some 9, ["s"], some "k"⟩ 5 9 "s" "k" rfl rfl rfl
    (by decide) (by decide) rfl (by decide)

/-! ## Lemmas about `FindAlertGroup` and `processAlert` -/

/-- Lemma: `_FindAlertGroup` succeeds exactly on the first group satisfying the
matching condition, and then behaves as `_AddAlertToGroup` on that group. -/
theorem findAlertGroup_spec (a : Alert) (suite kind : String) :
    ∀ groups : List AlertGroup,
      (groups.find? (fun g => groupMatches a g suite kind) = none →
        FindAlertGroup a groups suite kind = none) ∧
      (∀ g, groups.find? (fun g => groupMatches a g suite kind) = some g →
        ∃ gs', FindAlertGroup a groups suite kind =
          some ((AddAlertToGroup a g).1, gs', (AddAlertToGroup a g).2.2)) := by
  intro groups
  induction groups with
  | nil => exact ⟨fun _ => rfl, fun g h => by simp at h⟩
  | cons gh gs ih =>
    cases hm : groupMatches a gh suite kind with
    | true =>
      constructor
      · intro h
        simp [List.find?, hm] at h
      · intro g h
        simp only [List.find?, hm] at h
        obtain rfl : gh = g := by simpa using h
        exact ⟨(AddAlertToGroup a gh).2.1 :: gs, by simp [FindAlertGroup, hm]⟩
    | false =>
      constructor
      · intro h
        simp only [List.find?, hm] at h
        have hrec := ih.1 h
        simp [FindAlertGroup, hm, hrec]
      · intro g h
        simp only [List.find?, hm] at h
        obtain ⟨gs', hgs⟩ := ih.2 g h
        exact ⟨gh :: gs', by simp [FindAlertGroup, hm, hgs]⟩

/-- Claim C3: the loop body of `GroupAlerts` assigns each alert to the first
group in the current group list whose range overlaps the alert's, whose
`alert_kind` equals the given kind, and whose `test_suites` contain the
given suite; when no group matches, it creates a new group for the alert and
assigns the alert to it. -/
theorem processAlert_assignment (suite kind : String) (st : GState) (a : Alert) :
    (∀ g, st.groups.find? (fun g => groupMatches a g suite kind) = some g →
      (processAlert suite kind st a).2.group = some g.key ∧
      (processAlert suite kind st a).1.created = st.created ∧
      (processAlert suite kind st a).1.nextKey = st.nextKey) ∧
    (st.groups.find? (fun g => groupMatches a g suite kind) = none →
      (processAlert suite kind st a).2 =
        (CreateGroupForAlert a suite kind st.nextKey).2 ∧
      (processAlert suite kind st a).2.group = some st.nextKey ∧
      (processAlert suite kind st a).1.created =
        st.created ++ [(CreateGroupForAlert a suite kind st.nextKey).1]) := by
  constructor
  · intro g hfind
    obtain ⟨gs', hgs⟩ := (findAlertGroup_spec a suite kind st.groups).2 g hfind
    refine ⟨?_, ?_, ?_⟩
    · simp only [processAlert, hgs]
      exact (addAlertToGroup_assigns a g).2
    · simp [processAlert, hgs]
    · simp [processAlert, hgs]
  · intro hfind
    have hnone := (findAlertGroup_spec a suite kind st.groups).1 hfind
    refine ⟨?_, ?_, ?_⟩
    · simp [processAlert, hnone]
    · simp [processAlert, hnone, CreateGroupForAlert]
    · simp [processAlert, hnone]

/-- Witness for claim C3: with one matching group fetched, the alert is
assigned to it and nothing is created. -/
theorem processAlert_assignment_witness :
    (processAlert "s" "k"
        ⟨[⟨7, none, some 3, some 10, ["s"], some "k"⟩], [], 100, []⟩
        ⟨1, 5, false, none, none⟩).2.group =
      some (⟨7, none, some 3, some 10, ["s"], some "k"⟩ : AlertGroup).key ∧
    (processAlert "s" "k"
        ⟨[⟨7, none, some 3, some 10, ["s"], some "k"⟩], [], 100, []⟩
        ⟨1, 5, false, none, none⟩).1.created =
      (⟨[⟨7, none, some 3, some 10, ["s"], some "k"⟩], [], 100, []⟩ : GState).created ∧
    (processAlert "s" "k"
        ⟨[⟨7, none, some 3, some 10, ["s"], some "k"⟩], [], 100, []⟩
        ⟨1, 5, false, none, none⟩).1.nextKey =
      (⟨[⟨7, none, some 3, some 10, ["s"], some "k"⟩], [], 100, []⟩ : GState).nextKey :=
  (processAlert_assignment "s" "k"
      ⟨[⟨7, none, some 3, some 10, ["s"], some "k"⟩], [], 100, []⟩
      ⟨1, 5, false, none, none⟩).1
    ⟨7, none, some 3, some 10, ["s"], some "k"⟩ (by decide)

/-- Claim C8: on an empty alert list, or one consisting solely of
improvement alerts, `GroupAlerts` performs no fetch, creates nothing, and
processes no alert. -/
theorem groupAlerts_no_relevant_alerts (ds : List AlertGroup) (nextKey : Nat)
    (alerts : List Alert) (suite kind : String)
    (h : alerts = [] ∨ ∀ a ∈ alerts, a.is_improvement = true) :
    GroupAlerts ds nextKey alerts suite kind = (GState.start nextKey, []) := by
  cases h with
  | inl h => subst h; rfl
  | inr h =>
    cases alerts with
    | nil => rfl
    | cons a t =>
      have hfilter : (a :: t).filter (fun x => !x.is_improvement) = [] := by
        rw [List.filter_eq_nil_iff]
        intro x hx
        simp [h x hx]
      simp [GroupAlerts, hfilter, sortByEnd, List.insertionSort]

/-- Witness for claim C8: a single improvement alert leads to an untouched
state. -/
theorem groupAlerts_no_relevant_alerts_witness :
    GroupAlerts [] 5 [(⟨0, 1, true, none, none⟩ : Alert)] "s" "k" =
      (GState.start 5, []) :=
  groupAlerts_no_relevant_alerts [] 5 [⟨0, 1, true, none, none⟩] "s" "k"
    (Or.inr (by decide))

/-! ## Lemmas for the batch structure of `GroupAlerts` -/

theorem findAlertGroup_eff (a : Alert) (suite kind : String) :
    ∀ (groups : List AlertGroup) (a' : Alert) (gs' : List AlertGroup)
      (eff : List Effect),
      FindAlertGroup a groups suite kind = some (a', gs', eff) →
      eff.filter Effect.isFetch = [] := by
  intro groups
  induction groups with
  | nil => intro a' gs' eff h; simp [FindAlertGroup] at h
  | cons gh gs ih =>
    intro a' gs' eff h
    cases hm : groupMatches a gh suite kind with
    | true =>
      simp only [FindAlertGroup, hm, if_true] at h
      cases h
      rcases addAlertToGroup_effects a gh with h0 | ⟨k, hk⟩
      · rw [h0]; rfl
      · rw [hk]; simp [Effect.isFetch]
    | false =>
      simp only [FindAlertGroup, hm, Bool.false_eq_true, if_false] at h
      cases hrec : FindAlertGroup a gs suite kind with
      | none => rw [hrec] at h; simp at h
      | some y =>
        obtain ⟨a2, gs2, eff2⟩ := y
        rw [hrec] at h
        simp only [Option.some.injEq, Prod.mk.injEq] at h
        obtain ⟨-, -, heff⟩ := h
        subst heff
        exact ih a2 gs2 eff2 hrec

theorem findAlertGroup_alert_end (a : Alert) (suite kind : String) :
    ∀ (groups : List AlertGroup) (a' : Alert) (gs' : List AlertGroup)
      (eff : List Effect),
      FindAlertGroup a groups suite kind = some (a', gs', eff) →
      a'.end_revision = a.end_revision := by
  intro groups
  induction groups with
  | nil => intro a' gs' eff h; simp [FindAlertGroup] at h
  | cons gh gs ih =>
    intro a' gs' eff h
    cases hm : groupMatches a gh suite kind with
    | true =>
      simp only [FindAlertGroup, hm, if_true] at h
      cases h
      exact (addAlertToGroup_alert_frame a gh).2
    | false =>
      simp only [FindAlertGroup, hm, Bool.false_eq_true, if_false] at h
      cases hrec : FindAlertGroup a gs suite kind with
      | none => rw [hrec] at h; simp at h
      | some y =>
        obtain ⟨a2, gs2, eff2⟩ := y
        rw [hrec] at h
        simp only [Option.some.injEq, Prod.mk.injEq] at h
        obtain ⟨ha2, -, -⟩ := h
        subst ha2
        exact ih a2 gs2 eff2 hrec

/-- One loop iteration adds no fetch effect. -/
theorem processAlert_effects_filter (suite kind : String) (st : GState) (a : Alert) :
    ((processAlert suite kind st a).1.effects).filter Effect.isFetch =
      st.effects.filter Effect.isFetch := by
  cases hf : FindAlertGroup a st.groups suite kind with
  | none =>
    simp [processAlert, hf, List.filter_append, Effect.isFetch]
  | some x =>
    obtain ⟨a', gs', eff⟩ := x
    have heff := findAlertGroup_eff a suite kind st.groups a' gs' eff hf
    simp [processAlert, hf, List.filter_append, heff]

/-- One loop iteration does not change the alert's `end_revision`. -/
theorem processAlert_end (suite kind : String) (st : GState) (a : Alert) :
    (processAlert suite kind st a).2.end_revision = a.end_revision := by
  cases hf : FindAlertGroup a st.groups suite kind with
  | none => simp [processAlert, hf, CreateGroupForAlert]
  | some x =>
    obtain ⟨a', gs', eff⟩ := x
    have := findAlertGroup_alert_end a suite kind st.groups a' gs' eff hf
    simp [processAlert, hf, this]

/-- The loop of `GroupAlerts` adds no fetch effect. -/
theorem groupLoop_effects_filter (suite kind : String) :
    ∀ (l : List Alert) (st : GState),
      ((groupLoop suite kind st l).1.effects).filter Effect.isFetch =
        st.effects.filter Effect.isFetch := by
  intro l
  induction l with
  | nil => intro st; rfl
  | cons a t ih =>
    intro st
    show ((groupLoop suite kind (processAlert suite kind st a).1 t).1.effects).filter
        Effect.isFetch = st.effects.filter Effect.isFetch
    rw [ih, processAlert_effects_filter]

/-- The loop processes exactly the given alerts, in order, keeping their
`end_revision`s. -/
theorem groupLoop_map_end (suite kind : String) :
    ∀ (l : List Alert) (st : GState),
      ((groupLoop suite kind st l).2).map (fun a => a.end_revision) =
        l.map (fun a => a.end_revision) := by
  intro l
  induction l with
  | nil => intro st; rfl
  | cons a t ih =>
    intro st
    show (processAlert suite kind st a).2.end_revision ::
        ((groupLoop suite kind (processAlert suite kind st a).1 t).2).map
          (fun a => a.end_revision) =
      a.end_revision :: t.map (fun a => a.end_revision)
    rw [ih, processAlert_end]

theorem insertDesc_perm (g : AlertGroup) :
    ∀ l : List AlertGroup, (insertDesc g l).Perm (g :: l) := by
  intro l
  induction l with
  | nil => exact List.Perm.refl _
  | cons h t ih =>
    simp only [insertDesc]
    by_cases hc : startDescLe g h = true
    · rw [if_pos hc]
    · rw [if_neg hc]
      exact (List.Perm.cons h ih).trans (List.Perm.swap g h t)

theorem sortDescByStart_perm :
    ∀ l : List AlertGroup, (sortDescByStart l).Perm l := by
  intro l
  induction l with
  | nil => exact List.Perm.refl _
  | cons g t ih =>
    exact (insertDesc_perm g (sortDescByStart t)).trans (List.Perm.cons g ih)

/-- Every group fetched by `_FetchAlertGroups` is a datastore group passing
the query filter. -/
theorem fetchAlertGroups_sound (ds : List AlertGroup) (M : Int) :
    ∀ g ∈ (FetchAlertGroups ds M).1, g ∈ ds ∧ fetchMatch M g = true := by
  intro g hg
  have hmem : g ∈ sortDescByStart (ds.filter (fetchMatch M)) := by
    rcases List.mem_append.mp hg with h | h <;> exact List.mem_of_mem_take h
  have hfil : g ∈ ds.filter (fetchMatch M) :=
    (sortDescByStart_perm _).mem_iff.mp hmem
  exact List.mem_filter.mp hfil

/-- When at most `_MAX_GROUPS_TO_FETCH` groups match, `_FetchAlertGroups`
fetches exactly the datastore groups passing the query filter. -/
theorem fetchAlertGroups_complete (ds : List AlertGroup) (M : Int)
    (hlen : (ds.filter (fetchMatch M)).length ≤ MAX_GROUPS_TO_FETCH) :
    ∀ g, g ∈ (FetchAlertGroups ds M).1 ↔ g ∈ ds ∧ fetchMatch M g = true := by
  intro g
  have hplen : (sortDescByStart (ds.filter (fetchMatch M))).length =
      (ds.filter (fetchMatch M)).length := (sortDescByStart_perm _).length_eq
  have htake : (sortDescByStart (ds.filter (fetchMatch M))).take
      MAX_GROUPS_TO_FETCH = sortDescByStart (ds.filter (fetchMatch M)) :=
    List.take_of_length_le (by rw [hplen]; exact hlen)
  constructor
  · exact fetchAlertGroups_sound ds M g
  · intro hin
    have hfetch : (FetchAlertGroups ds M).1 =
        (sortDescByStart (ds.filter (fetchMatch M))).take MAX_GROUPS_TO_FETCH ++
          (sortDescByStart (ds.filter (fetchMatch M))).take MAX_GROUPS_TO_FETCH :=
      rfl
    rw [hfetch, htake, List.mem_append, or_self,
      (sortDescByStart_perm _).mem_iff]
    exact List.mem_filter.mpr ⟨hin.1, hin.2⟩

theorem foldl_max_le (s c : Int) (l : List Int) (hs : s ≤ c)
    (h : ∀ x ∈ l, x ≤ c) : l.foldl max s ≤ c := by
  induction l generalizing s with
  | nil => exact hs
  | cons x t ih =>
    rw [List.foldl_cons]
    exact ih _ (max_le hs (h x (List.mem_cons_self x t)))
      (fun y hy => h y (List.mem_cons_of_mem x hy))

theorem mem_le_foldl_max (x s : Int) (l : List Int) (h : x ∈ l) :
    x ≤ l.foldl max s := by
  induction l generalizing s with
  | nil => cases h
  | cons y t ih =>
    rw [List.foldl_cons]
    rcases List.mem_cons.mp h with rfl | hx
    · exact le_trans (le_max_right s x) (le_foldl_max _ t)
    · exact ih _ hx

theorem listMax_eq_of_forall_le {L : List Int} {x : Int} (hmem : x ∈ L)
    (hle : ∀ y ∈ L, y ≤ x) : listMax L = some x := by
  cases L with
  | nil => cases hmem
  | cons a t =>
    simp only [listMax, Option.some.injEq]
    apply le_antisymm
    · exact foldl_max_le a x t (hle a (List.mem_cons_self a t))
        (fun y hy => hle y (List.mem_cons_of_mem a hy))
    · rcases List.mem_cons.mp hmem with rfl | hx
      · exact le_foldl_max x t
      · exact mem_le_foldl_max x a t hx

/-- In a list sorted by `end_revision`, the last element has the maximal
`end_revision`. -/
theorem sorted_getLast_ge :
    ∀ (l : List Alert) (hl : l ≠ []), List.Sorted endLe l →
      ∀ y ∈ l, y.end_revision ≤ (l.getLast hl).end_revision := by
  intro l
  induction l with
  | nil => intro hl; exact absurd rfl hl
  | cons a t ih =>
    intro hl hs y hy
    cases t with
    | nil =>
      rcases List.mem_cons.mp hy with rfl | h
      · exact le_refl _
      · exact absurd h (List.not_mem_nil y)
    | cons b t' =>
      have hlast : (a :: b :: t').getLast hl =
          (b :: t').getLast (List.cons_ne_nil b t') := rfl
      rcases List.mem_cons.mp hy with rfl | h
      · have hmem : (b :: t').getLast (List.cons_ne_nil b t') ∈ b :: t' :=
          List.getLast_mem _
        rw [hlast]
        exact (List.sorted_cons.mp hs).1 _ hmem
      · rw [hlast]
        exact ih (List.cons_ne_nil b t') (List.sorted_cons.mp hs).2 y h

/-- The maximum `end_revision` of a sorted non-empty alert list is that of
its last element. -/
theorem sorted_listMax (l : List Alert) (hl : l ≠ [])
    (hs : List.Sorted endLe l) :
    listMax (l.map fun a => a.end_revision) =
      some ((l.getLast hl).end_revision) := by
  apply listMax_eq_of_forall_le
  · exact List.mem_map.mpr ⟨l.getLast hl, List.getLast_mem hl, rfl⟩
  · intro y hy
    obtain ⟨b, hb, rfl⟩ := List.mem_map.mp hy
    exact sorted_getLast_ge l hl hs b hb

/-- Unfolding of `GroupAlerts` on a non-empty alert list with a non-empty
sorted remainder. -/
theorem groupAlerts_cons (ds : List AlertGroup) (nextKey : Nat) (a : Alert)
    (t : List Alert) (suite kind : String) (lastA : Alert)
    (hlast : (sortByEnd ((a :: t).filter fun x => !x.is_improvement)).getLast?
      = some lastA) :
    GroupAlerts ds nextKey (a :: t) suite kind =
      groupLoop suite kind
        { groups := (FetchAlertGroups ds lastA.end_revision).1
          created := []
          nextKey := nextKey
          effects := (FetchAlertGroups ds lastA.end_revision).2 }
        (sortByEnd ((a :: t).filter fun x => !x.is_improvement)) := by
  simp only [GroupAlerts]
  rw [hlast]

/-- Claim C4 (amended): for every alert list containing at least one
non-improvement alert, `GroupAlerts` is a single-pass batch algorithm: it
removes the improvement alerts, sorts the remainder in nondecreasing
`end_revision` order, fetches the set of candidate existing groups — those
with `start_revision` at most the largest `end_revision` among the sorted
alerts — exactly once, and then processes each remaining alert exactly
once, in the sorted order.  The fetched-set clauses make the candidate
description precise: every fetched group passes the query filter, and the
fetch returns exactly the passing groups whenever at most
`_MAX_GROUPS_TO_FETCH` of them pass. -/
theorem groupAlerts_single_pass (ds : List AlertGroup) (nextKey : Nat)
    (alerts : List Alert) (suite kind : String)
    (hne : alerts.filter (fun a => !a.is_improvement) ≠ []) :
    List.Sorted endLe (sortByEnd (alerts.filter fun a => !a.is_improvement)) ∧
    (sortByEnd (alerts.filter fun a => !a.is_improvement)).Perm
      (alerts.filter fun a => !a.is_improvement) ∧
    ∃ M,
      listMax ((alerts.filter fun a => !a.is_improvement).map
          fun a => a.end_revision) = some M ∧
      (GroupAlerts ds nextKey alerts suite kind).1.effects.filter
          Effect.isFetch = [Effect.fetchGroups M] ∧
      (∀ g ∈ (FetchAlertGroups ds M).1, g ∈ ds ∧ fetchMatch M g = true) ∧
      ((ds.filter (fetchMatch M)).length ≤ MAX_GROUPS_TO_FETCH →
        ∀ g, g ∈ (FetchAlertGroups ds M).1 ↔ g ∈ ds ∧ fetchMatch M g = true) ∧
      (GroupAlerts ds nextKey alerts suite kind).2.map
          (fun a => a.end_revision) =
        (sortByEnd (alerts.filter fun a => !a.is_improvement)).map
          (fun a => a.end_revision) := by
  refine ⟨List.sorted_insertionSort endLe _, List.perm_insertionSort endLe _, ?_⟩
  cases alerts with
  | nil => exact absurd rfl hne
  | cons a t =>
    have hperm : (sortByEnd ((a :: t).filter fun x => !x.is_improvement)).Perm
        ((a :: t).filter fun x => !x.is_improvement) :=
      List.perm_insertionSort endLe _
    have hsrtne : sortByEnd ((a :: t).filter fun x => !x.is_improvement) ≠ [] := by
      intro hcon
      apply hne
      have hlen := hperm.length_eq
      rw [hcon] at hlen
      exact List.length_eq_zero.mp hlen.symm
    have hsorted : List.Sorted endLe
        (sortByEnd ((a :: t).filter fun x => !x.is_improvement)) :=
      List.sorted_insertionSort endLe _
    have hlast := List.getLast?_eq_getLast_of_ne_nil hsrtne
    have hGA := groupAlerts_cons ds nextKey a t suite kind _ hlast
    refine ⟨((sortByEnd ((a :: t).filter fun x => !x.is_improvement)).getLast
        hsrtne).end_revision, ?_, ?_, ?_, ?_, ?_⟩
    · have h1 := sorted_listMax _ hsrtne hsorted
      have h2 := listMax_perm (hperm.map fun a => a.end_revision)
      rw [← h2]
      exact h1
    · rw [hGA, groupLoop_effects_filter]
      rfl
    · exact fetchAlertGroups_sound ds _
    · exact fetchAlertGroups_complete ds _
    · rw [hGA]
      exact groupLoop_map_end suite kind _ _

/-- Counterexample to claim C4 as stated: on the non-empty list consisting
of a single improvement alert, `GroupAlerts` returns without issuing any
fetch, so it does not fetch the candidate groups exactly once. -/
theorem groupAlerts_single_pass_counterexample :
    ([(⟨0, 1, true, none, none⟩ : Alert)] ≠ ([] : List Alert)) ∧
    (GroupAlerts [] 0 [(⟨0, 1, true, none, none⟩ : Alert)] "s" "k").1.effects.filter
        Effect.isFetch = [] :=
  ⟨by decide, rfl⟩

/-- Witness for claim C4 at a one-alert list. -/
theorem groupAlerts_single_pass_witness :
    List.Sorted endLe (sortByEnd ([(⟨1, 5, false, none, none⟩ : Alert)].filter
        fun a => !a.is_improvement)) ∧
    (sortByEnd ([(⟨1, 5, false, none, none⟩ : Alert)].filter
        fun a => !a.is_improvement)).Perm
      ([(⟨1, 5, false, none, none⟩ : Alert)].filter fun a => !a.is_improvement) ∧
    ∃ M,
      listMax (([(⟨1, 5, false, none, none⟩ : Alert)].filter
          fun a => !a.is_improvement).map fun a => a.end_revision) = some M ∧
      (GroupAlerts [] 0 [(⟨1, 5, false, none, none⟩ : Alert)] "s" "k").1.effects.filter
          Effect.isFetch = [Effect.fetchGroups M] ∧
      (∀ g ∈ (FetchAlertGroups [] M).1, g ∈ ([] : List AlertGroup) ∧
        fetchMatch M g = true) ∧
      ((([] : List AlertGroup).filter (fetchMatch M)).length ≤
          MAX_GROUPS_TO_FETCH →
        ∀ g, g ∈ (FetchAlertGroups [] M).1 ↔
          g ∈ ([] : List AlertGroup) ∧ fetchMatch M g = true) ∧
      (GroupAlerts [] 0 [(⟨1, 5, false, none, none⟩ : Alert)] "s" "k").2.map
          (fun a => a.end_revision) =
        (sortByEnd ([(⟨1, 5, false, none, none⟩ : Alert)].filter
            fun a => !a.is_improvement)).map (fun a => a.end_revision) :=
  groupAlerts_single_pass [] 0 [⟨1, 5, false, none, none⟩] "s" "k" (by decide)

end Catapult
